import Mathlib

/-!
Shallow embedding of the incremental face-clustering engine of
`src/face-recognition-service.js` (class `FaceRecognitionService`), together
with proofs of the specified properties.

Modelling conventions:
* JavaScript numbers are modelled as real numbers (`ℝ`).
* A JavaScript `Map` (string keys, insertion order, unique keys) is modelled
  as an association list `List (String × α)`; `Map.get`/`has`/`set` become
  `mapGet`/`mapHas`/`mapSet`.
* The face-detection oracle (`detectFaces`) is an external collaborator; its
  outcome for an image is passed to `processImage` as an
  `Except String (List Face)` value (`.error` models a thrown detection
  error).  `fs.existsSync(imagePath)` is passed as a `Bool`.
* The nondeterministic id generator
  `face_${Date.now()}_${Math.random()...}` is modelled as an oracle
  `fresh : Nat → String` giving the id generated for the i-th face of the
  image.
* Persisted per-image records (`facesDir/<sanitized>.json` files) are the
  `faceData` association list of the service state, keyed by the sanitized
  file name; calls to `saveFaceGroups` are counted by `groupsSaves`, calls
  to `detectFaces` by `detectCalls`.
-/

/-- Bounding box of a detected face (`detection.detection.box`). -/
structure Box where
  x : ℝ
  y : ℝ
  width : ℝ
  height : ℝ

/-- One detected face: its 128-dimension descriptor and bounding box. -/
structure Face where
  embedding : List ℝ
  box : Box

/-- One emitted group entry `{ groupId, similarity }` of a processed image. -/
structure GroupEntry where
  groupId : String
  similarity : ℝ

/-- The persisted per-image record `{ filename, faces, groups }`. -/
structure ImageRecord where
  filename : String
  faces : List Face
  groups : List GroupEntry

/-- A face cluster `{ referenceEmbedding, images }` as stored in the
`faceGroups` map (named `FaceGroup` here: `Group` is taken by Mathlib). -/
structure FaceGroup where
  referenceEmbedding : List ℝ
  images : List String

/-- `Map.get`: value of the first entry with the given key. -/
def mapGet {α : Type} (m : List (String × α)) (k : String) : Option α :=
  match m with
  | [] => none
  | (k', v) :: rest => if k' = k then some v else mapGet rest k

/-- `Map.has`. -/
def mapHas {α : Type} (m : List (String × α)) (k : String) : Bool :=
  (mapGet m k).isSome

/-- `Map.set`: replace the value in place when the key is present, append a
new entry otherwise (JavaScript `Map` keeps insertion order). -/
def mapSet {α : Type} (m : List (String × α)) (k : String) (v : α) :
    List (String × α) :=
  match m with
  | [] => [(k, v)]
  | (k', v') :: rest =>
    if k' = k then (k', v) :: rest else (k', v') :: mapSet rest k v

/-- In-place mutation of the value stored under a present key (models
`map.get(k)` followed by mutation of the returned object). -/
def mapUpdate {α : Type} (m : List (String × α)) (k : String) (f : α → α) :
    List (String × α) :=
  match m with
  | [] => []
  | (k', v) :: rest =>
    if k' = k then (k', f v) :: rest else (k', v) :: mapUpdate rest k f

/-- The accumulation loop of `cosineSimilarity`: one pass computing
`(dotProduct, norm1-sum, norm2-sum)`.  The source iterates up to
`embedding1.length`; on the equal-length vectors the service works with,
that is the simultaneous recursion below. -/
def simAcc : List ℝ → List ℝ → ℝ × ℝ × ℝ
  | a :: as, b :: bs =>
    let r := simAcc as bs
    (a * b + r.1, a * a + r.2.1, b * b + r.2.2)
  | _, _ => (0, 0, 0)

/-- `cosineSimilarity(embedding1, embedding2)`:
`dot / (sqrt(norm1) * sqrt(norm2))`, and `0` when either square root is
zero (the source checks `norm1 === 0 || norm2 === 0` after the square
roots). -/
noncomputable def cosineSimilarity (embedding1 embedding2 : List ℝ) : ℝ :=
  let s := simAcc embedding1 embedding2
  let norm1 := Real.sqrt s.2.1
  let norm2 := Real.sqrt s.2.2
  if norm1 = 0 ∨ norm2 = 0 then 0 else s.1 / (norm1 * norm2)

/-- Sum of squares of a vector (the value both norm accumulators take on
equal-length inputs). -/
def sumSq : List ℝ → ℝ
  | [] => 0
  | x :: xs => x * x + sumSq xs

/-- Pointwise scaling of a vector by a scalar (used to state the
scale-invariance property). -/
def smulList (k : ℝ) (a : List ℝ) : List ℝ :=
  a.map (fun x => k * x)

theorem simAcc_swap (a b : List ℝ) :
    simAcc a b = ((simAcc b a).1, (simAcc b a).2.2, (simAcc b a).2.1) := by
  induction a generalizing b with
  | nil => cases b <;> simp [simAcc]
  | cons x xs ih =>
    cases b with
    | nil => simp [simAcc]
    | cons y ys => simp [simAcc, ih ys]; ring

theorem simAcc_self (a : List ℝ) :
    simAcc a a = (sumSq a, sumSq a, sumSq a) := by
  induction a with
  | nil => simp [simAcc, sumSq]
  | cons x xs ih => simp [simAcc, sumSq, ih]

theorem simAcc_eq_of_length (a b : List ℝ) (h : a.length = b.length) :
    (simAcc a b).2.1 = sumSq a ∧ (simAcc a b).2.2 = sumSq b := by
  induction a generalizing b with
  | nil =>
    cases b with
    | nil => simp [simAcc, sumSq]
    | cons y ys => simp at h
  | cons x xs ih =>
    cases b with
    | nil => simp at h
    | cons y ys =>
      simp at h
      obtain ⟨h1, h2⟩ := ih ys h
      simp [simAcc, sumSq, h1, h2]

theorem sumSq_nonneg (a : List ℝ) : 0 ≤ sumSq a := by
  induction a with
  | nil => simp [sumSq]
  | cons x xs ih => simpa [sumSq] using add_nonneg (mul_self_nonneg x) ih

theorem sumSq_pos (a : List ℝ) (h : ∃ x ∈ a, x ≠ 0) : 0 < sumSq a := by
  obtain ⟨x, hx, hne⟩ := h
  induction a with
  | nil => simp at hx
  | cons y ys ih =>
    rcases List.mem_cons.mp hx with h1 | h2
    · subst h1
      have : 0 < x * x := mul_self_pos.mpr hne
      have := sumSq_nonneg ys
      simp [sumSq]; nlinarith
    · have := ih h2
      have h0 := mul_self_nonneg y
      simp [sumSq]; nlinarith

theorem sumSq_smul (k : ℝ) (a : List ℝ) :
    sumSq (smulList k a) = k * k * sumSq a := by
  induction a with
  | nil => simp [smulList, sumSq]
  | cons x xs ih => simp [smulList, sumSq] at *; rw [ih]; ring

theorem simAcc_smul (k : ℝ) (a : List ℝ) :
    simAcc a (smulList k a) = (k * sumSq a, sumSq a, k * k * sumSq a) := by
  induction a with
  | nil => simp [smulList, simAcc, sumSq]
  | cons x xs ih => simp [smulList, simAcc, sumSq] at *; rw [ih]; ring_nf; simp

theorem cosineSimilarity_symm (a b : List ℝ) :
    cosineSimilarity a b = cosineSimilarity b a := by
  unfold cosineSimilarity
  rw [simAcc_swap a b]
  simp only []
  by_cases h1 : Real.sqrt (simAcc b a).2.2 = 0 <;>
    by_cases h2 : Real.sqrt (simAcc b a).2.1 = 0 <;>
      simp [h1, h2, mul_comm]

theorem cosineSimilarity_self (a : List ℝ) (h : ∃ x ∈ a, x ≠ 0) :
    cosineSimilarity a a = 1 := by
  have hpos := sumSq_pos a h
  have hs : Real.sqrt (sumSq a) ≠ 0 := by
    intro h0
    have := (Real.sqrt_eq_zero (le_of_lt hpos)).mp h0
    exact absurd this (ne_of_gt hpos)
  unfold cosineSimilarity
  rw [simAcc_self]
  simp only [hs, or_self, if_false]
  rw [Real.mul_self_sqrt (le_of_lt hpos)]
  exact div_self (ne_of_gt hpos)

theorem cosineSimilarity_smul (a : List ℝ) (k : ℝ) (hk : 0 < k) :
    cosineSimilarity a (smulList k a) = cosineSimilarity a a := by
  unfold cosineSimilarity
  rw [simAcc_smul, simAcc_self]
  simp only []
  have hnn := sumSq_nonneg a
  have hsq : Real.sqrt (k * k * sumSq a) = k * Real.sqrt (sumSq a) := by
    rw [Real.sqrt_mul (mul_self_nonneg k), Real.sqrt_mul_self (le_of_lt hk)]
  rw [hsq]
  by_cases h0 : Real.sqrt (sumSq a) = 0
  · simp [h0]
  · have hk0 : k * Real.sqrt (sumSq a) ≠ 0 :=
      mul_ne_zero (ne_of_gt hk) h0
    simp only [h0, hk0, or_self, if_false]
    have hs0 : sumSq a ≠ 0 := fun hz => h0 (by rw [hz, Real.sqrt_zero])
    have hms : Real.sqrt (sumSq a) * Real.sqrt (sumSq a) = sumSq a :=
      Real.mul_self_sqrt hnn
    rw [show Real.sqrt (sumSq a) * (k * Real.sqrt (sumSq a)) = k * sumSq a by
          rw [mul_left_comm, hms],
        hms, div_self hs0, div_self (mul_ne_zero (ne_of_gt hk) hs0)]

theorem cosineSimilarity_zero_norm (a b : List ℝ) (hlen : a.length = b.length)
    (h : sumSq a = 0 ∨ sumSq b = 0) : cosineSimilarity a b = 0 := by
  obtain ⟨h1, h2⟩ := simAcc_eq_of_length a b hlen
  unfold cosineSimilarity
  rcases h with h | h
  · simp [h1, h, Real.sqrt_zero]
  · simp [h2, h, Real.sqrt_zero]

theorem sumSq_replicate_zero (n : Nat) : sumSq (List.replicate n 0) = 0 := by
  induction n with
  | zero => simp [sumSq]
  | succ m ih => simp [List.replicate, sumSq, ih]

theorem cosineSimilarity_div_form (a b : List ℝ) (hlen : a.length = b.length)
    (ha : sumSq a ≠ 0) (hb : sumSq b ≠ 0) :
    cosineSimilarity a b =
      (simAcc a b).1 / (Real.sqrt (sumSq a) * Real.sqrt (sumSq b)) ∧
    Real.sqrt (sumSq a) * Real.sqrt (sumSq b) ≠ 0 := by
  obtain ⟨h1, h2⟩ := simAcc_eq_of_length a b hlen
  have ha' : Real.sqrt (sumSq a) ≠ 0 := by
    intro h0
    exact ha ((Real.sqrt_eq_zero (sumSq_nonneg a)).mp h0)
  have hb' : Real.sqrt (sumSq b) ≠ 0 := by
    intro h0
    exact hb ((Real.sqrt_eq_zero (sumSq_nonneg b)).mp h0)
  constructor
  · unfold cosineSimilarity
    simp only [h1, h2, ha', hb', or_self, if_false]
  · exact mul_ne_zero ha' hb'

/-- The loop of `matchFace`: fold over the `faceGroups` entries carrying
`(bestMatch, bestSimilarity)`, updating when `similarity > bestSimilarity`. -/
noncomputable def matchFaceLoop (embedding : List ℝ)
    (groups : List (String × FaceGroup))
    (bestMatch : Option String) (bestSimilarity : ℝ) : Option String × ℝ :=
  match groups with
  | [] => (bestMatch, bestSimilarity)
  | (faceId, groupData) :: rest =>
    let similarity := cosineSimilarity embedding groupData.referenceEmbedding
    if bestSimilarity < similarity then
      matchFaceLoop embedding rest (some faceId) similarity
    else
      matchFaceLoop embedding rest bestMatch bestSimilarity

/-- `matchFace(embedding, threshold)`: the final
`return bestMatch ? { faceId: bestMatch, similarity: bestSimilarity } : null`
is conditional on JavaScript truthiness of `bestMatch`, so a best match whose
id is the empty string would also yield `null`. -/
noncomputable def matchFace (embedding : List ℝ)
    (groups : List (String × FaceGroup)) (threshold : ℝ) :
    Option (String × ℝ) :=
  let r := matchFaceLoop embedding groups none threshold
  match r.1 with
  | some faceId => if faceId = "" then none else some (faceId, r.2)
  | none => none

theorem matchFaceLoop_le_snd (e : List ℝ) (gs : List (String × FaceGroup))
    (bm : Option String) (b : ℝ) : b ≤ (matchFaceLoop e gs bm b).2 := by
  induction gs generalizing bm b with
  | nil => simp [matchFaceLoop]
  | cons p rest ih =>
    obtain ⟨id, g⟩ := p
    by_cases h : b < cosineSimilarity e g.referenceEmbedding
    · simp only [matchFaceLoop, if_pos h]
      exact le_trans (le_of_lt h) (ih _ _)
    · simp only [matchFaceLoop, if_neg h]
      exact ih _ _

theorem matchFaceLoop_snd_le (e : List ℝ) (gs : List (String × FaceGroup))
    (bm : Option String) (b M : ℝ) (hb : b ≤ M)
    (h : ∀ p ∈ gs, cosineSimilarity e p.2.referenceEmbedding ≤ M) :
    (matchFaceLoop e gs bm b).2 ≤ M := by
  induction gs generalizing bm b with
  | nil => simpa [matchFaceLoop]
  | cons p rest ih =>
    obtain ⟨id, g⟩ := p
    by_cases hlt : b < cosineSimilarity e g.referenceEmbedding
    · simp only [matchFaceLoop, if_pos hlt]
      exact ih _ _ (h (id, g) (List.mem_cons_self _ _))
        (fun q hq => h q (List.mem_cons_of_mem _ hq))
    · simp only [matchFaceLoop, if_neg hlt]
      exact ih _ _ hb (fun q hq => h q (List.mem_cons_of_mem _ hq))

theorem matchFaceLoop_mem_le (e : List ℝ) (gs : List (String × FaceGroup))
    (bm : Option String) (b : ℝ) :
    ∀ p ∈ gs, cosineSimilarity e p.2.referenceEmbedding ≤
      (matchFaceLoop e gs bm b).2 := by
  induction gs generalizing bm b with
  | nil => simp
  | cons q rest ih =>
    obtain ⟨id, g⟩ := q
    intro p hp
    by_cases hlt : b < cosineSimilarity e g.referenceEmbedding
    · simp only [matchFaceLoop, if_pos hlt]
      rcases List.mem_cons.mp hp with h1 | h2
      · subst h1
        exact matchFaceLoop_le_snd e rest _ _
      · exact ih _ _ p h2
    · simp only [matchFaceLoop, if_neg hlt]
      rcases List.mem_cons.mp hp with h1 | h2
      · subst h1
        exact le_trans (le_of_not_lt hlt) (matchFaceLoop_le_snd e rest _ _)
      · exact ih _ _ p h2

theorem matchFaceLoop_eq_or (e : List ℝ) (gs : List (String × FaceGroup))
    (bm : Option String) (b : ℝ) :
    matchFaceLoop e gs bm b = (bm, b) ∨
      ∃ p ∈ gs, (matchFaceLoop e gs bm b).1 = some p.1 ∧
        (matchFaceLoop e gs bm b).2 = cosineSimilarity e p.2.referenceEmbedding ∧
        b < cosineSimilarity e p.2.referenceEmbedding := by
  induction gs generalizing bm b with
  | nil => left; rfl
  | cons q rest ih =>
    obtain ⟨id, g⟩ := q
    by_cases hlt : b < cosineSimilarity e g.referenceEmbedding
    · simp only [matchFaceLoop, if_pos hlt]
      rcases ih (some id) (cosineSimilarity e g.referenceEmbedding) with h | h
      · right
        refine ⟨(id, g), List.mem_cons_self _ _, ?_, ?_, hlt⟩ <;> rw [h]
      · right
        obtain ⟨p, hp, h1, h2, h3⟩ := h
        exact ⟨p, List.mem_cons_of_mem _ hp, h1, h2, lt_trans hlt h3⟩
    · simp only [matchFaceLoop, if_neg hlt]
      rcases ih bm b with h | h
      · left; exact h
      · right
        obtain ⟨p, hp, h1, h2, h3⟩ := h
        exact ⟨p, List.mem_cons_of_mem _ hp, h1, h2, h3⟩

theorem matchFace_some (e : List ℝ) (gs : List (String × FaceGroup))
    (th M : ℝ)
    (hne : ∀ p ∈ gs, p.1 ≠ "")
    (hex : ∃ p ∈ gs, cosineSimilarity e p.2.referenceEmbedding = M)
    (hub : ∀ p ∈ gs, cosineSimilarity e p.2.referenceEmbedding ≤ M)
    (hth : th < M) :
    ∃ p ∈ gs, matchFace e gs th = some (p.1, M) ∧
      cosineSimilarity e p.2.referenceEmbedding = M := by
  obtain ⟨p0, hp0, hM0⟩ := hex
  have hge : M ≤ (matchFaceLoop e gs none th).2 := by
    rw [← hM0]; exact matchFaceLoop_mem_le e gs none th p0 hp0
  have hle : (matchFaceLoop e gs none th).2 ≤ M :=
    matchFaceLoop_snd_le e gs none th M (le_of_lt hth) hub
  have heq : (matchFaceLoop e gs none th).2 = M := le_antisymm hle hge
  rcases matchFaceLoop_eq_or e gs none th with h | h
  · rw [h] at heq
    exact absurd heq (ne_of_lt hth)
  · obtain ⟨p, hp, h1, h2, _⟩ := h
    refine ⟨p, hp, ?_, by rw [← h2, heq]⟩
    unfold matchFace
    simp only [h1, hne p hp, if_false, heq]

theorem matchFace_none (e : List ℝ) (gs : List (String × FaceGroup)) (th : ℝ)
    (hub : ∀ p ∈ gs, cosineSimilarity e p.2.referenceEmbedding ≤ th) :
    matchFace e gs th = none := by
  rcases matchFaceLoop_eq_or e gs none th with h | h
  · unfold matchFace
    rw [h]
  · obtain ⟨p, hp, _, _, h3⟩ := h
    exact absurd (hub p hp) (not_le_of_lt h3)

theorem matchFace_mem (e : List ℝ) (gs : List (String × FaceGroup))
    (th : ℝ) (id : String) (s : ℝ) (h : matchFace e gs th = some (id, s)) :
    ∃ g, (id, g) ∈ gs := by
  rcases matchFaceLoop_eq_or e gs none th with h0 | h0
  · unfold matchFace at h
    rw [h0] at h
    simp at h
  · obtain ⟨p, hp, h1, _, _⟩ := h0
    simp only [matchFace, h1] at h
    by_cases he : p.1 = ""
    · simp [he] at h
    · simp only [he, if_false, Option.some.injEq, Prod.mk.injEq] at h
      exact ⟨p.2, by rw [← h.1]; exact hp⟩

/-- The body of the per-face loop of `processImage`: match the face against
the current `faceGroups`; on a match, defensively (re-)create the group if
its id is somehow absent, then push `filename` onto its `images` unless
already present; otherwise create a new group under the freshly generated
id.  Returns the updated `faceGroups` and the pushed `groups` entry. -/
noncomputable def processFace (faceGroups : List (String × FaceGroup))
    (filename freshId : String) (face : Face) :
    List (String × FaceGroup) × GroupEntry :=
  match matchFace face.embedding faceGroups 0.6 with
  | some m =>
    let groupId := m.1
    let groups1 :=
      if mapHas faceGroups groupId then faceGroups
      else mapSet faceGroups groupId
        { referenceEmbedding := face.embedding, images := [] }
    let groups2 := mapUpdate groups1 groupId (fun g =>
      if filename ∈ g.images then g
      else { g with images := g.images ++ [filename] })
    (groups2, { groupId := groupId, similarity := m.2 })
  | none =>
    (mapSet faceGroups freshId
      { referenceEmbedding := face.embedding, images := [filename] },
     { groupId := freshId, similarity := 1 })

/-- The `for (const face of detectionResult.faces)` loop of `processImage`;
`i` is the index of the current face, used to address the id-generator
oracle. -/
noncomputable def processFaces (faceGroups : List (String × FaceGroup))
    (filename : String) (fresh : Nat → String) (faces : List Face)
    (i : Nat) : List (String × FaceGroup) × List GroupEntry :=
  match faces with
  | [] => (faceGroups, [])
  | face :: rest =>
    let r1 := processFace faceGroups filename (fresh i) face
    let r2 := processFaces r1.1 filename fresh rest (i + 1)
    (r2.1, r1.2 :: r2.2)

/-- In-memory and persisted state of the `FaceRecognitionService`:
the `faceGroups` map, the persisted per-image records (`faceData`, keyed by
sanitized file name), and counters of detector invocations and
`saveFaceGroups` writes. -/
structure ServiceState where
  faceGroups : List (String × FaceGroup)
  faceData : List (String × ImageRecord)
  detectCalls : Nat
  groupsSaves : Nat

/-- The name of the per-image record file:
`filename.replace(/\//g, '_') + ".json"`. -/
def recordKey (filename : String) : String :=
  String.mk (filename.data.map (fun c => if c = '/' then '_' else c)) ++
    ".json"

/-- `processImage(filename)`.  `fileExists` models
`fs.existsSync(imagePath)`, `detect` the outcome of
`detectFaces(imagePath)`, and `fresh` the id generator.  Returns the
thrown-or-returned value together with the post-call state. -/
noncomputable def processImage (st : ServiceState) (fileExists : Bool)
    (detect : Except String (List Face)) (fresh : Nat → String)
    (filename : String) : Except String ImageRecord × ServiceState :=
  if fileExists = false then
    (.error ("Image not found: " ++ filename), st)
  else
    let faceDataKey := recordKey filename
    match mapGet st.faceData faceDataKey with
    | some cached => (.ok cached, st)
    | none =>
      let st1 : ServiceState := { st with detectCalls := st.detectCalls + 1 }
      match detect with
      | .error e => (.error e, st1)
      | .ok faces =>
        if faces.length = 0 then
          let result : ImageRecord :=
            { filename := filename, faces := [], groups := [] }
          (.ok result,
           { st1 with faceData := mapSet st1.faceData faceDataKey result })
        else
          let pr := processFaces st1.faceGroups filename fresh faces 0
          let result : ImageRecord :=
            { filename := filename, faces := faces, groups := pr.2 }
          (.ok result,
           { st1 with
               faceGroups := pr.1,
               faceData := mapSet st1.faceData faceDataKey result,
               groupsSaves := st1.groupsSaves + 1 })

/-- One element of the list returned by `processImages`: either the
per-image record, or the per-item error object
`{ filename, error: error.message }`. -/
inductive BatchEntry where
  | ok (record : ImageRecord)
  | failed (filename : String) (message : String)

/-- The loop of `processImages`.  Returns
`(results, progress-callback invocations, final state)`; the progress
callback is recorded as an `(i + 1, total, filename)` triple and, as in the
source, is only reached inside the `try` block after a successful
`processImage`. -/
noncomputable def processImagesLoop (st : ServiceState)
    (fileExists : String → Bool)
    (detect : String → Except String (List Face))
    (fresh : String → Nat → String) (total : Nat)
    (names : List String) (i : Nat) :
    List BatchEntry × List (Nat × Nat × String) × ServiceState :=
  match names with
  | [] => ([], [], st)
  | f :: rest =>
    let r := processImage st (fileExists f) (detect f) (fresh f) f
    match r.1 with
    | .ok record =>
      let t := processImagesLoop r.2 fileExists detect fresh total rest (i + 1)
      (.ok record :: t.1, (i + 1, total, f) :: t.2.1, t.2.2)
    | .error e =>
      let t := processImagesLoop r.2 fileExists detect fresh total rest (i + 1)
      (.failed f e :: t.1, t.2.1, t.2.2)

/-- `processImages(filenames, progressCallback)`. -/
noncomputable def processImages (st : ServiceState)
    (fileExists : String → Bool)
    (detect : String → Except String (List Face))
    (fresh : String → Nat → String) (names : List String) :
    List BatchEntry × List (Nat × Nat × String) × ServiceState :=
  processImagesLoop st fileExists detect fresh names.length names 0

/-- `getFaceGroups()`: snapshot of all clusters, no state change. -/
def getFaceGroups (st : ServiceState) : List (String × Nat × List String) :=
  st.faceGroups.map (fun p => (p.1, p.2.images.length, p.2.images))

/-- `getGroupImages(groupId)`: image list of one cluster, `[]` when the id
is unknown, no state change. -/
def getGroupImages (st : ServiceState) (groupId : String) : List String :=
  match mapGet st.faceGroups groupId with
  | some g => g.images
  | none => []

theorem mem_of_mapGet_eq_some {α : Type} (m : List (String × α))
    (k : String) (v : α) (h : mapGet m k = some v) : (k, v) ∈ m := by
  induction m with
  | nil => simp [mapGet] at h
  | cons p rest ih =>
    obtain ⟨k', v'⟩ := p
    by_cases he : k' = k
    · subst he
      simp [mapGet] at h
      simp [h]
    · simp only [mapGet, if_neg he] at h
      exact List.mem_cons_of_mem _ (ih h)

theorem mapGet_eq_some_of_mem {α : Type} (m : List (String × α))
    (k : String) (v : α) (hnd : (m.map Prod.fst).Nodup)
    (h : (k, v) ∈ m) : mapGet m k = some v := by
  induction m with
  | nil => simp at h
  | cons p rest ih =>
    obtain ⟨k', v'⟩ := p
    simp only [List.map_cons, List.nodup_cons] at hnd
    rcases List.mem_cons.mp h with h1 | h2
    · cases h1
      simp [mapGet]
    · by_cases he : k' = k
      · subst he
        exact absurd (List.mem_map_of_mem Prod.fst h2) hnd.1
      · simp only [mapGet, if_neg he]
        exact ih hnd.2 h2

theorem mapHas_of_mem {α : Type} (m : List (String × α)) (k : String) (v : α)
    (h : (k, v) ∈ m) : mapHas m k = true := by
  induction m with
  | nil => simp at h
  | cons p rest ih =>
    obtain ⟨k', v'⟩ := p
    rcases List.mem_cons.mp h with h1 | h2
    · cases h1
      simp [mapHas, mapGet]
    · by_cases he : k' = k
      · simp [mapHas, mapGet, he]
      · simpa [mapHas, mapGet, he] using ih h2

theorem mapGet_none_iff {α : Type} (m : List (String × α)) (k : String) :
    mapGet m k = none ↔ k ∉ m.map Prod.fst := by
  induction m with
  | nil => simp [mapGet]
  | cons p rest ih =>
    obtain ⟨k', v'⟩ := p
    by_cases he : k' = k
    · subst he
      simp [mapGet]
    · simp [mapGet, he, ih, Ne.symm he]

theorem mapSet_of_not_mem {α : Type} (m : List (String × α)) (k : String)
    (v : α) (h : k ∉ m.map Prod.fst) : mapSet m k v = m ++ [(k, v)] := by
  induction m with
  | nil => simp [mapSet]
  | cons p rest ih =>
    obtain ⟨k', v'⟩ := p
    simp only [List.map_cons, List.mem_cons] at h
    push_neg at h
    simp [mapSet, Ne.symm h.1, ih h.2]

theorem mapGet_append_left {α : Type} (m l : List (String × α)) (k : String)
    (v : α) (h : mapGet m k = some v) : mapGet (m ++ l) k = some v := by
  induction m with
  | nil => simp [mapGet] at h
  | cons p rest ih =>
    obtain ⟨k', v'⟩ := p
    by_cases he : k' = k <;> simp_all [mapGet]

theorem mapUpdate_fst {α : Type} (m : List (String × α)) (k : String)
    (f : α → α) : (mapUpdate m k f).map Prod.fst = m.map Prod.fst := by
  induction m with
  | nil => rfl
  | cons p rest ih =>
    obtain ⟨k', v'⟩ := p
    by_cases he : k' = k <;> simp [mapUpdate, he, ih]

theorem mapGet_mapUpdate_self {α : Type} (m : List (String × α)) (k : String)
    (f : α → α) (v : α) (h : mapGet m k = some v) :
    mapGet (mapUpdate m k f) k = some (f v) := by
  induction m with
  | nil => simp [mapGet] at h
  | cons p rest ih =>
    obtain ⟨k', v'⟩ := p
    by_cases he : k' = k
    · subst he
      simp [mapGet] at h
      simp [mapUpdate, mapGet, h]
    · simp only [mapGet, if_neg he] at h
      simp [mapUpdate, mapGet, he, ih h]

theorem mapGet_mapUpdate_ne {α : Type} (m : List (String × α))
    (k k' : String) (f : α → α) (h : k' ≠ k) :
    mapGet (mapUpdate m k f) k' = mapGet m k' := by
  induction m with
  | nil => rfl
  | cons p rest ih =>
    obtain ⟨ka, va⟩ := p
    by_cases he : ka = k
    · subst he
      have hne : ¬ka = k' := fun hc => h hc.symm
      simp [mapUpdate, mapGet, hne]
    · by_cases he2 : ka = k' <;> simp [mapUpdate, mapGet, he, he2, h, ih]

theorem mem_mapUpdate {α : Type} (m : List (String × α)) (k : String)
    (f : α → α) (p : String × α) (h : p ∈ mapUpdate m k f) :
    p ∈ m ∨ ∃ v, (k, v) ∈ m ∧ p = (k, f v) := by
  induction m with
  | nil => simp [mapUpdate] at h
  | cons q rest ih =>
    obtain ⟨ka, va⟩ := q
    by_cases he : ka = k
    · subst he
      simp only [mapUpdate, if_pos rfl] at h
      rcases List.mem_cons.mp h with h1 | h2
      · right
        exact ⟨va, List.mem_cons_self _ _, h1⟩
      · left
        exact List.mem_cons_of_mem _ h2
    · simp only [mapUpdate, if_neg he] at h
      rcases List.mem_cons.mp h with h1 | h2
      · left
        simp [h1]
      · rcases ih h2 with h3 | ⟨v, hv, hp⟩
        · left
          exact List.mem_cons_of_mem _ h3
        · right
          exact ⟨v, List.mem_cons_of_mem _ hv, hp⟩

theorem processFace_matched (gs : List (String × FaceGroup))
    (fn fid : String) (face : Face) (M : ℝ)
    (hnd : (gs.map Prod.fst).Nodup)
    (hne : ∀ p ∈ gs, p.1 ≠ "")
    (hex : ∃ p ∈ gs,
      cosineSimilarity face.embedding p.2.referenceEmbedding = M)
    (hub : ∀ p ∈ gs,
      cosineSimilarity face.embedding p.2.referenceEmbedding ≤ M)
    (hM : (0.6 : ℝ) < M) :
    ∃ p ∈ gs,
      mapGet gs p.1 = some p.2 ∧
      cosineSimilarity face.embedding p.2.referenceEmbedding = M ∧
      processFace gs fn fid face =
        (mapUpdate gs p.1 (fun g =>
          if fn ∈ g.images then g
          else { g with images := g.images ++ [fn] }),
         { groupId := p.1, similarity := M }) := by
  obtain ⟨p, hp, hmf, hcos⟩ := matchFace_some face.embedding gs 0.6 M hne hex hub hM
  refine ⟨p, hp, mapGet_eq_some_of_mem gs p.1 p.2 hnd (by exact hp), hcos, ?_⟩
  have hhas : mapHas gs p.1 = true := mapHas_of_mem gs p.1 p.2 (by exact hp)
  unfold processFace
  rw [hmf]
  simp [hhas]

theorem processFace_unmatched (gs : List (String × FaceGroup))
    (fn fid : String) (face : Face)
    (hub : ∀ p ∈ gs,
      cosineSimilarity face.embedding p.2.referenceEmbedding ≤ 0.6) :
    processFace gs fn fid face =
      (mapSet gs fid
        { referenceEmbedding := face.embedding, images := [fn] },
       { groupId := fid, similarity := 1 }) := by
  unfold processFace
  rw [matchFace_none face.embedding gs 0.6 hub]

theorem processFace_preserves (gs : List (String × FaceGroup))
    (fn fid : String) (face : Face) (hfid : fid ∉ gs.map Prod.fst) :
    ((∀ p ∈ gs, p.2.images ≠ []) →
      ∀ p ∈ (processFace gs fn fid face).1, p.2.images ≠ []) ∧
    (∀ k g, mapGet gs k = some g →
      ∃ g', mapGet (processFace gs fn fid face).1 k = some g' ∧
        g'.referenceEmbedding = g.referenceEmbedding) ∧
    ((processFace gs fn fid face).1.map Prod.fst = gs.map Prod.fst ∨
      (processFace gs fn fid face).1.map Prod.fst =
        gs.map Prod.fst ++ [fid]) := by
  cases hm : matchFace face.embedding gs 0.6 with
  | some m =>
    obtain ⟨id, s⟩ := m
    obtain ⟨g0, hg0⟩ := matchFace_mem face.embedding gs 0.6 id s hm
    have hhas : mapHas gs id = true := mapHas_of_mem gs id g0 hg0
    have hred : (processFace gs fn fid face).1 =
        mapUpdate gs id (fun g =>
          if fn ∈ g.images then g
          else { g with images := g.images ++ [fn] }) := by
      unfold processFace
      rw [hm]
      simp [hhas]
    rw [hred]
    refine ⟨?_, ?_, Or.inl (mapUpdate_fst ..)⟩
    · intro hinv p hp
      rcases mem_mapUpdate _ _ _ p hp with h1 | ⟨v, hv, hpv⟩
      · exact hinv p h1
      · subst hpv
        by_cases hin : fn ∈ v.images
        · simpa [hin] using hinv (id, v) hv
        · simp [hin]
    · intro k g hk
      by_cases hkk : k = id
      · subst hkk
        refine ⟨_, mapGet_mapUpdate_self gs k _ g hk, ?_⟩
        by_cases hin : fn ∈ g.images <;> simp [hin]
      · exact ⟨g, by rw [mapGet_mapUpdate_ne gs id k _ hkk]; exact hk, rfl⟩
  | none =>
    have hred : (processFace gs fn fid face).1 =
        gs ++ [(fid, { referenceEmbedding := face.embedding,
                       images := [fn] })] := by
      unfold processFace
      rw [hm]
      exact mapSet_of_not_mem gs fid _ hfid
    rw [hred]
    refine ⟨?_, ?_, Or.inr (by simp)⟩
    · intro hinv p hp
      rcases List.mem_append.mp hp with h1 | h2
      · exact hinv p h1
      · simp at h2
        simp [h2]
    · intro k g hk
      exact ⟨g, mapGet_append_left gs _ k g hk, rfl⟩

theorem processFaces_preserves (fn : String) (fresh : Nat → String)
    (faces : List Face) :
    ∀ (gs : List (String × FaceGroup)) (i : Nat),
    (∀ j, i ≤ j → j < i + faces.length → fresh j ∉ gs.map Prod.fst) →
    (∀ j k, i ≤ j → j < i + faces.length → i ≤ k → k < i + faces.length →
      fresh j = fresh k → j = k) →
    ((∀ p ∈ gs, p.2.images ≠ []) →
      ∀ p ∈ (processFaces gs fn fresh faces i).1, p.2.images ≠ []) ∧
    (∀ k g, mapGet gs k = some g →
      ∃ g', mapGet (processFaces gs fn fresh faces i).1 k = some g' ∧
        g'.referenceEmbedding = g.referenceEmbedding) ∧
    (∀ x, x ∈ (processFaces gs fn fresh faces i).1.map Prod.fst →
      x ∈ gs.map Prod.fst ∨
        ∃ j, i ≤ j ∧ j < i + faces.length ∧ x = fresh j) := by
  induction faces with
  | nil =>
    intro gs i _ _
    refine ⟨fun h => ?_, fun k g hk => ⟨g, hk, rfl⟩, fun x hx => Or.inl hx⟩
    simpa [processFaces] using h
  | cons face rest ih =>
    intro gs i hfr hinj
    have hfid : fresh i ∉ gs.map Prod.fst :=
      hfr i (le_refl i) (by simp)
    obtain ⟨P1, P2, P3⟩ := processFace_preserves gs fn (fresh i) face hfid
    set gs1 := (processFace gs fn (fresh i) face).1 with hgs1
    have hstep : processFaces gs fn fresh (face :: rest) i =
        ((processFaces gs1 fn fresh rest (i + 1)).1,
         (processFace gs fn (fresh i) face).2 ::
           (processFaces gs1 fn fresh rest (i + 1)).2) := by
      simp [processFaces]
    have hfr' : ∀ j, i + 1 ≤ j → j < (i + 1) + rest.length →
        fresh j ∉ gs1.map Prod.fst := by
      intro j hj1 hj2 hmem
      have hj0 : fresh j ∉ gs.map Prod.fst :=
        hfr j (by omega) (by simp; omega)
      rcases P3 with h | h
      · rw [h] at hmem
        exact hj0 hmem
      · rw [h] at hmem
        rcases List.mem_append.mp hmem with h1 | h2
        · exact hj0 h1
        · simp at h2
          have : j = i :=
            hinj j i (by omega) (by simp; omega) (by omega) (by simp) h2
          omega
    have hinj' : ∀ j k, i + 1 ≤ j → j < (i + 1) + rest.length →
        i + 1 ≤ k → k < (i + 1) + rest.length → fresh j = fresh k → j = k :=
      fun j k h1 h2 h3 h4 h5 =>
        hinj j k (by omega) (by simp; omega) (by omega) (by simp; omega) h5
    obtain ⟨Q1, Q2, Q3⟩ := ih gs1 (i + 1) hfr' hinj'
    rw [hstep]
    refine ⟨fun hinv => Q1 (P1 hinv), ?_, ?_⟩
    · intro k g hk
      obtain ⟨g1, hg1, he1⟩ := P2 k g hk
      obtain ⟨g2, hg2, he2⟩ := Q2 k g1 hg1
      exact ⟨g2, hg2, he2.trans he1⟩
    · intro x hx
      rcases Q3 x hx with h | ⟨j, hj1, hj2, hj3⟩
      · rcases P3 with h3 | h3
        · rw [h3] at h
          exact Or.inl h
        · rw [h3] at h
          rcases List.mem_append.mp h with h1 | h2
          · exact Or.inl h1
          · simp at h2
            exact Or.inr ⟨i, le_refl i, by simp, h2⟩
      · exact Or.inr ⟨j, by omega, by simp; omega, hj3⟩

/-- The progress-callback trace the batch loop actually produces: one
`(position, total, filename)` triple per filename whose `processImage`
succeeded, in input order, skipping failed filenames. -/
def successProgress (total : Nat) :
    List String → List BatchEntry → Nat → List (Nat × Nat × String)
  | f :: fs, BatchEntry.ok _ :: es, i =>
    (i + 1, total, f) :: successProgress total fs es (i + 1)
  | _ :: fs, BatchEntry.failed _ _ :: es, i =>
    successProgress total fs es (i + 1)
  | _, _, _ => []

theorem processImagesLoop_progress (fileExists : String → Bool)
    (detect : String → Except String (List Face))
    (fresh : String → Nat → String) (total : Nat) (names : List String) :
    ∀ (st : ServiceState) (i : Nat),
    (processImagesLoop st fileExists detect fresh total names i).2.1 =
      successProgress total names
        (processImagesLoop st fileExists detect fresh total names i).1 i := by
  induction names with
  | nil => intro st i; rfl
  | cons f rest ih =>
    intro st i
    cases hr : (processImage st (fileExists f) (detect f) (fresh f) f).1 with
    | ok record =>
      simp only [processImagesLoop, hr]
      rw [ih]
      rfl
    | error e =>
      simp only [processImagesLoop, hr]
      rw [ih]
      rfl

theorem processImagesLoop_entries_indep (fileExists : String → Bool)
    (detect : String → Except String (List Face))
    (fresh : String → Nat → String) (names : List String) :
    ∀ (st : ServiceState) (total total' i i' : Nat),
    (processImagesLoop st fileExists detect fresh total names i).1 =
      (processImagesLoop st fileExists detect fresh total' names i').1 := by
  induction names with
  | nil => intro st total total' i i'; rfl
  | cons f rest ih =>
    intro st total total' i i'
    cases hr : (processImage st (fileExists f) (detect f) (fresh f) f).1 with
    | ok record =>
      simp only [processImagesLoop, hr]
      rw [ih]
    | error e =>
      simp only [processImagesLoop, hr]
      rw [ih]

theorem processImagesLoop_length (fileExists : String → Bool)
    (detect : String → Except String (List Face))
    (fresh : String → Nat → String) (total : Nat) (names : List String) :
    ∀ (st : ServiceState) (i : Nat),
    (processImagesLoop st fileExists detect fresh total names i).1.length =
      names.length := by
  induction names with
  | nil => intro st i; rfl
  | cons f rest ih =>
    intro st i
    cases hr : (processImage st (fileExists f) (detect f) (fresh f) f).1 with
    | ok record => simp only [processImagesLoop, hr, List.length_cons, ih]
    | error e => simp only [processImagesLoop, hr, List.length_cons, ih]

/-- C8: `cosineSimilarity` is symmetric on equal-length vectors, equals `1.0`
on a pair of identical non-zero vectors, and is invariant under scaling one
argument by a positive constant. -/
theorem claimC8 :
    (∀ a b : List ℝ, a.length = b.length →
      cosineSimilarity a b = cosineSimilarity b a) ∧
    (∀ a : List ℝ, (∃ x ∈ a, x ≠ 0) → cosineSimilarity a a = 1) ∧
    (∀ (a : List ℝ) (k : ℝ), (∃ x ∈ a, x ≠ 0) → 0 < k →
      cosineSimilarity a (smulList k a) = cosineSimilarity a a) :=
  ⟨fun a b _ => cosineSimilarity_symm a b,
   fun a h => cosineSimilarity_self a h,
   fun a k _ hk => cosineSimilarity_smul a k hk⟩

/-- Witness for C8 at concrete vectors. -/
theorem claimC8_witness :
    cosineSimilarity [1, 2] [3, 4] = cosineSimilarity [3, 4] [1, 2] ∧
    cosineSimilarity [1, 2] [1, 2] = 1 ∧
    cosineSimilarity [1, 2] (smulList 2 [1, 2]) =
      cosineSimilarity [1, 2] [1, 2] :=
  ⟨claimC8.1 [1, 2] [3, 4] rfl,
   claimC8.2.1 [1, 2] ⟨1, by simp, one_ne_zero⟩,
   claimC8.2.2 [1, 2] 2 ⟨1, by simp, one_ne_zero⟩ (by norm_num)⟩

/-- C9: on equal-length vectors, `cosineSimilarity` returns exactly `0`
whenever either vector has zero norm (in particular against an all-zero
vector), and the division is only reached — with a non-zero denominator —
when both norms are non-zero. -/
theorem claimC9 :
    (∀ a b : List ℝ, a.length = b.length →
      sumSq a = 0 ∨ sumSq b = 0 → cosineSimilarity a b = 0) ∧
    (∀ (a : List ℝ) (n : Nat), a.length = n →
      cosineSimilarity a (List.replicate n 0) = 0 ∧
      cosineSimilarity (List.replicate n 0) a = 0) ∧
    (∀ a b : List ℝ, a.length = b.length → sumSq a ≠ 0 → sumSq b ≠ 0 →
      cosineSimilarity a b =
        (simAcc a b).1 / (Real.sqrt (sumSq a) * Real.sqrt (sumSq b)) ∧
      Real.sqrt (sumSq a) * Real.sqrt (sumSq b) ≠ 0) := by
  refine ⟨fun a b hl h => cosineSimilarity_zero_norm a b hl h, ?_,
    fun a b hl ha hb => cosineSimilarity_div_form a b hl ha hb⟩
  intro a n hn
  constructor
  · exact cosineSimilarity_zero_norm a (List.replicate n 0)
      (by simp [hn]) (Or.inr (sumSq_replicate_zero n))
  · exact cosineSimilarity_zero_norm (List.replicate n 0) a
      (by simp [hn]) (Or.inl (sumSq_replicate_zero n))

/-- Witness for C9 at concrete vectors. -/
theorem claimC9_witness :
    cosineSimilarity [0, 0] [3, 4] = 0 ∧
    cosineSimilarity [3, 4] (List.replicate 2 0) = 0 ∧
    (cosineSimilarity [3] [4] =
      (simAcc [3] [4]).1 / (Real.sqrt (sumSq [3]) * Real.sqrt (sumSq [4])) ∧
     Real.sqrt (sumSq [3]) * Real.sqrt (sumSq [4]) ≠ 0) :=
  ⟨claimC9.1 [0, 0] [3, 4] rfl (Or.inl (by norm_num [sumSq])),
   (claimC9.2.1 [3, 4] 2 rfl).1,
   claimC9.2.2 [3] [4] rfl (by norm_num [sumSq]) (by norm_num [sumSq])⟩

/-- C2: a face whose similarity against every existing cluster is at most
0.6 (in particular when there are no clusters) yields a brand-new cluster,
appended to the map under the freshly generated id (modelled as an oracle
and assumed absent from the map, as `Date.now()`/`Math.random()` ids are),
whose reference embedding is the face's embedding and whose images set is
exactly the singleton of the current filename; the emitted entry carries
similarity 1.0. -/
theorem claimC2 (gs : List (String × FaceGroup)) (filename freshId : String)
    (face : Face)
    (hub : ∀ p ∈ gs,
      cosineSimilarity face.embedding p.2.referenceEmbedding ≤ 0.6)
    (hfresh : freshId ∉ gs.map Prod.fst) :
    processFace gs filename freshId face =
      (gs ++ [(freshId,
        { referenceEmbedding := face.embedding, images := [filename] })],
       { groupId := freshId, similarity := 1 }) := by
  rw [processFace_unmatched gs filename freshId face hub,
      mapSet_of_not_mem gs freshId _ hfresh]

/-- Witness for C2: empty cluster set. -/
theorem claimC2_witness :
    ("face_new" ∉ ([] : List (String × FaceGroup)).map Prod.fst) ∧
    processFace [] "z.jpg" "face_new" ⟨[0, 1], ⟨0, 0, 0, 0⟩⟩ =
      ([("face_new", { referenceEmbedding := [0, 1], images := ["z.jpg"] })],
       { groupId := "face_new", similarity := 1 }) :=
  ⟨by simp,
   claimC2 [] "z.jpg" "face_new" ⟨[0, 1], ⟨0, 0, 0, 0⟩⟩ (by simp) (by simp)⟩

/-- C3: when a persisted record exists under the filename's record key (and
the image file itself still exists, the spec's precondition on
`processImage`), `processImage` returns the cached record and leaves the
whole state — cluster map, record store, detector-invocation and
cluster-set-write counters — untouched. -/
theorem claimC3 (st : ServiceState) (detect : Except String (List Face))
    (fresh : Nat → String) (filename : String) (r : ImageRecord)
    (hcached : mapGet st.faceData (recordKey filename) = some r) :
    processImage st true detect fresh filename = (.ok r, st) := by
  unfold processImage
  simp [hcached]

/-- Witness for C3: one cached record; the detection outcome is an error,
showing the oracle's answer is irrelevant to the cached path. -/
theorem claimC3_witness :
    mapGet [(recordKey "a.jpg",
        ({ filename := "a.jpg", faces := [], groups := [] } : ImageRecord))]
      (recordKey "a.jpg") =
      some { filename := "a.jpg", faces := [], groups := [] } ∧
    processImage
        { faceGroups := [],
          faceData := [(recordKey "a.jpg",
            { filename := "a.jpg", faces := [], groups := [] })],
          detectCalls := 0, groupsSaves := 0 }
        true (.error "detector offline") (fun _ => "n") "a.jpg" =
      (.ok { filename := "a.jpg", faces := [], groups := [] },
       { faceGroups := [],
         faceData := [(recordKey "a.jpg",
           { filename := "a.jpg", faces := [], groups := [] })],
         detectCalls := 0, groupsSaves := 0 }) :=
  ⟨by simp [mapGet],
   claimC3 _ (.error "detector offline") (fun _ => "n") "a.jpg"
     { filename := "a.jpg", faces := [], groups := [] }
     (by simp [mapGet])⟩

/-- C6: on a cache miss where the oracle reports zero faces, `processImage`
persists and returns a record with empty `faces` and `groups`, and the
cluster set is completely untouched: same `faceGroups`, no
`saveFaceGroups` write (`groupsSaves` unchanged). -/
theorem claimC6 (st : ServiceState) (fresh : Nat → String) (filename : String)
    (hmiss : mapGet st.faceData (recordKey filename) = none) :
    processImage st true (.ok []) fresh filename =
      (.ok { filename := filename, faces := [], groups := [] },
       { st with
           detectCalls := st.detectCalls + 1,
           faceData := mapSet st.faceData (recordKey filename)
             { filename := filename, faces := [], groups := [] } }) ∧
    (processImage st true (.ok []) fresh filename).2.faceGroups =
      st.faceGroups ∧
    (processImage st true (.ok []) fresh filename).2.groupsSaves =
      st.groupsSaves := by
  have h1 : processImage st true (.ok []) fresh filename =
      (.ok { filename := filename, faces := [], groups := [] },
       { st with
           detectCalls := st.detectCalls + 1,
           faceData := mapSet st.faceData (recordKey filename)
             { filename := filename, faces := [], groups := [] } }) := by
    unfold processImage
    simp [hmiss]
  exact ⟨h1, by rw [h1], by rw [h1]⟩

/-- Witness for C6 starting from the empty state. -/
theorem claimC6_witness :
    mapGet ([] : List (String × ImageRecord)) (recordKey "e.jpg") = none ∧
    processImage ⟨[], [], 0, 0⟩ true (.ok []) (fun _ => "n") "e.jpg" =
      (.ok { filename := "e.jpg", faces := [], groups := [] },
       ⟨[], [(recordKey "e.jpg",
          { filename := "e.jpg", faces := [], groups := [] })], 1, 0⟩) :=
  ⟨rfl, (claimC6 ⟨[], [], 0, 0⟩ (fun _ => "n") "e.jpg" rfl).1⟩

/-- C10: the record key sanitizes `/` to `_` and is therefore not injective:
`"a/b.jpg"` and `"a_b.jpg"` share a key, so once `"a/b.jpg"` is processed
(here with zero faces), processing `"a_b.jpg"` hits the cache and returns
the record of `"a/b.jpg"` — `filename` field included — with no state
change and no detector invocation (the second call's detection outcome is
an error that is never reached; `detectCalls` stays at 1). -/
theorem claimC10 :
    recordKey "a/b.jpg" = recordKey "a_b.jpg" ∧
    ("a/b.jpg" : String) ≠ "a_b.jpg" ∧
    processImage
        (processImage ⟨[], [], 0, 0⟩ true (.ok []) (fun _ => "i") "a/b.jpg").2
        true (.error "second detection") (fun _ => "i") "a_b.jpg" =
      (.ok { filename := "a/b.jpg", faces := [], groups := [] },
       (processImage ⟨[], [], 0, 0⟩ true (.ok [])
         (fun _ => "i") "a/b.jpg").2) ∧
    (processImage ⟨[], [], 0, 0⟩ true (.ok [])
      (fun _ => "i") "a/b.jpg").2.detectCalls = 1 := by
  refine ⟨by decide, by decide, ?_, rfl⟩
  rfl

/-- C1: for a face whose maximum similarity `M` over the existing clusters
is strictly above 0.6, `processFace` (the per-face step of `processImage`)
assigns the face to a cluster achieving that maximum: the emitted entry is
that cluster's id with similarity `M`, no cluster is created or removed
(the key list is unchanged), the matched cluster's `images` gains
`filename` only if absent, and every other cluster is untouched.
Hypotheses `hnd` (unique keys, a `Map` representation invariant) and `hne`
(no empty-string cluster id, as all generated ids start with `face_`)
are well-formedness conditions of the service state. -/
theorem claimC1 (gs : List (String × FaceGroup)) (filename freshId : String)
    (face : Face) (M : ℝ)
    (hnd : (gs.map Prod.fst).Nodup)
    (hne : ∀ p ∈ gs, p.1 ≠ "")
    (hex : ∃ p ∈ gs,
      cosineSimilarity face.embedding p.2.referenceEmbedding = M)
    (hub : ∀ p ∈ gs,
      cosineSimilarity face.embedding p.2.referenceEmbedding ≤ M)
    (hM : (0.6 : ℝ) < M) :
    ∃ g : FaceGroup,
      mapGet gs (processFace gs filename freshId face).2.groupId = some g ∧
      cosineSimilarity face.embedding g.referenceEmbedding = M ∧
      (processFace gs filename freshId face).2.similarity = M ∧
      (processFace gs filename freshId face).1.map Prod.fst =
        gs.map Prod.fst ∧
      mapGet (processFace gs filename freshId face).1
          (processFace gs filename freshId face).2.groupId =
        some { g with images :=
          if filename ∈ g.images then g.images
          else g.images ++ [filename] } ∧
      (∀ k, k ≠ (processFace gs filename freshId face).2.groupId →
        mapGet (processFace gs filename freshId face).1 k = mapGet gs k) := by
  obtain ⟨p, hp, hget, hcos, heq⟩ :=
    processFace_matched gs filename freshId face M hnd hne hex hub hM
  refine ⟨p.2, ?_, hcos, ?_, ?_, ?_, ?_⟩
  · simp only [heq]
    exact hget
  · simp [heq]
  · simp only [heq]
    exact mapUpdate_fst gs p.1 _
  · simp only [heq]
    rw [mapGet_mapUpdate_self gs p.1
      (fun g => if filename ∈ g.images then g
        else { g with images := g.images ++ [filename] }) p.2 hget]
    by_cases hin : filename ∈ p.2.images <;> simp [hin]
  · intro k hk
    simp only [heq] at hk ⊢
    exact mapGet_mapUpdate_ne gs p.1 k _ hk

/-- Witness for C1: one cluster `faceA` with reference `[1, 0]`, one face
with the same embedding (similarity 1 > 0.6). -/
theorem claimC1_witness :
    cosineSimilarity [1, 0] [1, 0] = 1 ∧
    (0.6 : ℝ) < 1 ∧
    (∃ g : FaceGroup,
      mapGet [("faceA",
          ({ referenceEmbedding := [1, 0], images := ["x.jpg"] } : FaceGroup))]
        (processFace [("faceA",
            { referenceEmbedding := [1, 0], images := ["x.jpg"] })]
          "y.jpg" "B" ⟨[1, 0], ⟨0, 0, 0, 0⟩⟩).2.groupId = some g ∧
      cosineSimilarity [1, 0] g.referenceEmbedding = 1 ∧
      (processFace [("faceA",
          { referenceEmbedding := [1, 0], images := ["x.jpg"] })]
        "y.jpg" "B" ⟨[1, 0], ⟨0, 0, 0, 0⟩⟩).2.similarity = 1 ∧
      (processFace [("faceA",
          { referenceEmbedding := [1, 0], images := ["x.jpg"] })]
        "y.jpg" "B" ⟨[1, 0], ⟨0, 0, 0, 0⟩⟩).1.map Prod.fst =
        [("faceA",
          ({ referenceEmbedding := [1, 0],
             images := ["x.jpg"] } : FaceGroup))].map Prod.fst ∧
      mapGet (processFace [("faceA",
            { referenceEmbedding := [1, 0], images := ["x.jpg"] })]
          "y.jpg" "B" ⟨[1, 0], ⟨0, 0, 0, 0⟩⟩).1
          (processFace [("faceA",
              { referenceEmbedding := [1, 0], images := ["x.jpg"] })]
            "y.jpg" "B" ⟨[1, 0], ⟨0, 0, 0, 0⟩⟩).2.groupId =
        some { g with images :=
          if "y.jpg" ∈ g.images then g.images
          else g.images ++ ["y.jpg"] } ∧
      (∀ k, k ≠ (processFace [("faceA",
            { referenceEmbedding := [1, 0], images := ["x.jpg"] })]
          "y.jpg" "B" ⟨[1, 0], ⟨0, 0, 0, 0⟩⟩).2.groupId →
        mapGet (processFace [("faceA",
            { referenceEmbedding := [1, 0], images := ["x.jpg"] })]
          "y.jpg" "B" ⟨[1, 0], ⟨0, 0, 0, 0⟩⟩).1 k =
        mapGet [("faceA",
          { referenceEmbedding := [1, 0], images := ["x.jpg"] })] k)) := by
  have hcos1 : cosineSimilarity [1, 0] [1, 0] = 1 :=
    cosineSimilarity_self [1, 0] ⟨1, by simp, one_ne_zero⟩
  refine ⟨hcos1, by norm_num, ?_⟩
  exact claimC1 [("faceA", ⟨[1, 0], ["x.jpg"]⟩)] "y.jpg" "B"
    ⟨[1, 0], ⟨0, 0, 0, 0⟩⟩ 1
    (by simp)
    (by intro p hp; simp at hp; rw [hp]; decide)
    ⟨("faceA", ⟨[1, 0], ["x.jpg"]⟩), by simp, hcos1⟩
    (by intro p hp; simp at hp; rw [hp]; exact le_of_eq hcos1)
    (by norm_num)

/-- C4 (amended): the progress callback is invoked exactly once per
SUCCESSFULLY processed filename, in input order, with
`(1-based position, total, filename)`; a filename whose `processImage`
throws triggers no callback, because in the source the callback call sits
inside the `try` block after the `await this.processImage(...)` — the
`catch` path records the error and skips it. -/
theorem claimC4 (fileExists : String → Bool)
    (detect : String → Except String (List Face))
    (fresh : String → Nat → String) (st : ServiceState)
    (names : List String) :
    (processImages st fileExists detect fresh names).2.1 =
      successProgress names.length names
        (processImages st fileExists detect fresh names).1 0 :=
  processImagesLoop_progress fileExists detect fresh names.length names st 0

/-- Counterexample to C4 as stated: a batch whose single filename fails
(the image file does not exist) produces an empty progress trace, not one
callback invocation per input filename. -/
theorem claimC4_counterexample :
    (processImages ⟨[], [], 0, 0⟩ (fun _ => false) (fun _ => .ok [])
      (fun _ _ => "id") ["a.jpg"]).2.1 = [] ∧
    (processImages ⟨[], [], 0, 0⟩ (fun _ => false) (fun _ => .ok [])
      (fun _ _ => "id") ["a.jpg"]).2.1.length ≠ ["a.jpg"].length := by
  have h1 : (processImages ⟨[], [], 0, 0⟩ (fun _ => false) (fun _ => .ok [])
      (fun _ _ => "id") ["a.jpg"]).2.1 = [] := rfl
  refine ⟨h1, ?_⟩
  rw [h1]
  simp

/-- C5: `processImages` returns exactly one entry per input filename, in
input order: the head entry of a batch is the `ImageRecord` when that
filename's `processImage` succeeds and the `(filename, error message)`
record when it throws, and the remaining filenames are always processed
against the post-call state regardless of that outcome. -/
theorem claimC5 (fileExists : String → Bool)
    (detect : String → Except String (List Face))
    (fresh : String → Nat → String) :
    (∀ (st : ServiceState) (names : List String),
      (processImages st fileExists detect fresh names).1.length =
        names.length) ∧
    (∀ (st : ServiceState) (f : String) (fs : List String),
      (processImages st fileExists detect fresh (f :: fs)).1 =
        (match (processImage st (fileExists f) (detect f) (fresh f) f).1 with
          | .ok record => BatchEntry.ok record
          | .error e => BatchEntry.failed f e) ::
        (processImages (processImage st (fileExists f) (detect f)
            (fresh f) f).2 fileExists detect fresh fs).1) := by
  constructor
  · intro st names
    exact processImagesLoop_length fileExists detect fresh
      names.length names st 0
  · intro st f fs
    unfold processImages
    cases hr : (processImage st (fileExists f) (detect f) (fresh f) f).1 with
    | ok record =>
      simp only [processImagesLoop, hr]
      rw [processImagesLoop_entries_indep fileExists detect fresh fs _
        (f :: fs).length fs.length 1 0]
    | error e =>
      simp only [processImagesLoop, hr]
      rw [processImagesLoop_entries_indep fileExists detect fresh fs _
        (f :: fs).length fs.length 1 0]

/-- C7: `processImage` (the only cluster-mutating operation; the query
operations `getFaceGroups`/`getGroupImages` take the state as a read-only
argument) preserves the cluster invariant: every cluster's `images` list
stays non-empty — clusters are only ever created with `images` equal to
`[filename]`, and the dead defensive re-creation branch with `images: []`
is unreachable because a match implies the id is present — and the
reference embedding of every pre-existing cluster is unchanged (fixed at
creation).  The generated ids are assumed pairwise distinct and absent
from the current map, as `Date.now()`/`Math.random()` ids are. -/
theorem claimC7 (st : ServiceState) (fileExists : Bool)
    (detect : Except String (List Face)) (fresh : Nat → String)
    (filename : String)
    (hinv : ∀ p ∈ st.faceGroups, p.2.images ≠ [])
    (hfr : ∀ j, fresh j ∉ st.faceGroups.map Prod.fst)
    (hinj : ∀ j k, fresh j = fresh k → j = k) :
    (∀ p ∈ (processImage st fileExists detect fresh filename).2.faceGroups,
      p.2.images ≠ []) ∧
    (∀ k g, mapGet st.faceGroups k = some g →
      ∃ g', mapGet
          (processImage st fileExists detect fresh filename).2.faceGroups
          k = some g' ∧
        g'.referenceEmbedding = g.referenceEmbedding) := by
  have hcases :
      (processImage st fileExists detect fresh filename).2.faceGroups =
        st.faceGroups ∨
      ∃ faces,
        (processImage st fileExists detect fresh filename).2.faceGroups =
          (processFaces st.faceGroups filename fresh faces 0).1 := by
    unfold processImage
    by_cases hfe : fileExists = false
    · simp [hfe]
    · simp only [hfe, if_false]
      cases hget : mapGet st.faceData (recordKey filename) with
      | some cached => simp
      | none =>
        cases detect with
        | error e => simp
        | ok faces =>
          by_cases hlen : faces.length = 0
          · simp [hlen]
          · simp only [hlen, if_false]
            exact Or.inr ⟨faces, rfl⟩
  rcases hcases with h | ⟨faces, h⟩
  · rw [h]
    exact ⟨hinv, fun k g hk => ⟨g, hk, rfl⟩⟩
  · rw [h]
    obtain ⟨P1, P2, _⟩ := processFaces_preserves filename fresh faces
      st.faceGroups 0 (fun j _ _ => hfr j)
      (fun j k _ _ _ _ hjk => hinj j k hjk)
    exact ⟨P1 hinv, P2⟩

/-- Witness for C7: one cluster `A` with one image, one detected face
matching it, and an id generator producing the pairwise-distinct ids
`"f"`, `"ff"`, `"fff"`, ... none of which is `"A"`. -/
theorem claimC7_witness :
    (∀ p ∈ ([("A", ({ referenceEmbedding := [1], images := ["x.jpg"] } :
        FaceGroup))] : List (String × FaceGroup)), p.2.images ≠ []) ∧
    (∀ p ∈ (processImage
        ⟨[("A", ⟨[1], ["x.jpg"]⟩)], [], 0, 0⟩ true
        (.ok [⟨[1], ⟨0, 0, 0, 0⟩⟩])
        (fun j => String.mk (List.replicate (j + 1) 'f'))
        "y.jpg").2.faceGroups, p.2.images ≠ []) ∧
    (∀ k g, mapGet ([("A", ⟨[1], ["x.jpg"]⟩)] : List (String × FaceGroup))
        k = some g →
      ∃ g', mapGet (processImage
          ⟨[("A", ⟨[1], ["x.jpg"]⟩)], [], 0, 0⟩ true
          (.ok [⟨[1], ⟨0, 0, 0, 0⟩⟩])
          (fun j => String.mk (List.replicate (j + 1) 'f'))
          "y.jpg").2.faceGroups k = some g' ∧
        g'.referenceEmbedding = g.referenceEmbedding) := by
  have hfr : ∀ j, (fun j => String.mk (List.replicate (j + 1) 'f')) j ∉
      (([("A", ⟨[1], ["x.jpg"]⟩)] : List (String × FaceGroup)).map
        Prod.fst) := by
    intro j hmem
    simp only [List.map_cons, List.map_nil, List.mem_singleton] at hmem
    have hd := congrArg String.data hmem
    simp only [] at hd
    have hA : ('A' : Char) ∈ List.replicate (j + 1) 'f' := by
      rw [hd]
      exact List.mem_cons_self _ _
    exact absurd (List.eq_of_mem_replicate hA) (by decide)
  have hinj : ∀ j k, (fun j => String.mk (List.replicate (j + 1) 'f')) j =
      (fun j => String.mk (List.replicate (k + 1) 'f')) k → j = k := by
    intro j k h
    have hd := congrArg String.data h
    have := congrArg List.length hd
    simp at this
    omega
  have hinv : ∀ p ∈ ([("A", (⟨[1], ["x.jpg"]⟩ : FaceGroup))] :
      List (String × FaceGroup)), p.2.images ≠ [] := by
    intro p hp
    simp only [List.mem_singleton] at hp
    rw [hp]
    simp
  exact ⟨hinv,
    claimC7 ⟨[("A", ⟨[1], ["x.jpg"]⟩)], [], 0, 0⟩ true
      (.ok [⟨[1], ⟨0, 0, 0, 0⟩⟩])
      (fun j => String.mk (List.replicate (j + 1) 'f')) "y.jpg"
      hinv hfr hinj⟩
